import Mathlib

/-!
Shallow embedding of the `cmdline` help/usage rendering engine
(`cmdline/help.go`) and proofs about it.

Modelling conventions:
* Text written through the `textutil.LineWriter` sink is modelled as a list of
  `OutEvent`s, one event per `fmt.Fprint*` call made by the Go code; the
  word-wrapping/indentation behaviour of the sink is the excluded layout
  collaborator and is not modelled (`SetIndents`, `ForceVerbatim` and `Flush`
  calls carry no text and produce no event).
* Process execution, PATH search and the godoc header recognizer
  (`go/doc.ToHTML`) are external collaborators; they are modelled as oracle
  functions carried in `OsEnv`.
* Go byte lengths of names (`len(s)`) are modelled as character counts; the
  two agree on ASCII names.
-/

namespace Cmdline

/-- One entry of a flag registry (`flag.Flag`): name, current value, default
value and one-line usage text.  Externally owned; the core only reads it.
The order of a `List FlagEntry` models the (name-sorted) visit order of
`flag.FlagSet.VisitAll`. -/
structure FlagEntry where
  name : String
  value : String
  defValue : String
  usage : String
deriving Repr, DecidableEq

/-- A compiled regular expression (`*regexp.Regexp`) modelled by its
`MatchString` method. -/
abbrev Rx := String → Bool

/-- A help topic: name, short description, verbatim long body. -/
structure Topic where
  name : String
  short : String
  long : String
deriving Repr, DecidableEq

/-- The four help output styles. -/
inductive Style where
  | compact
  | full
  | godoc
  | short
deriving Repr, DecidableEq

/-- Modelled from the spec: the token form of a style (`style.String()`, whose
definition is not under `src/`); the spec gives the tokens
`compact|full|godoc|short`. -/
def Style.token : Style → String
  | .compact => "compact"
  | .full => "full"
  | .godoc => "godoc"
  | .short => "short"

/-- A node of the command tree (`cmdline.Command`): name, short and long
descriptions, argument metadata, flag registry, whether it has a `Runner`,
the external-search flag (`LookPath`), help topics and child commands. -/
inductive Command where
  | mk (name short long argsName argsLong : String)
       (flags : List FlagEntry)
       (hasRunner lookPath : Bool)
       (topics : List Topic)
       (children : List Command)

def Command.name : Command → String
  | .mk n _ _ _ _ _ _ _ _ _ => n

def Command.short : Command → String
  | .mk _ s _ _ _ _ _ _ _ _ => s

def Command.long : Command → String
  | .mk _ _ l _ _ _ _ _ _ _ => l

def Command.argsName : Command → String
  | .mk _ _ _ a _ _ _ _ _ _ => a

def Command.argsLong : Command → String
  | .mk _ _ _ _ a _ _ _ _ _ => a

def Command.flags : Command → List FlagEntry
  | .mk _ _ _ _ _ f _ _ _ _ => f

def Command.hasRunner : Command → Bool
  | .mk _ _ _ _ _ _ r _ _ _ => r

def Command.lookPath : Command → Bool
  | .mk _ _ _ _ _ _ _ lp _ _ => lp

def Command.topics : Command → List Topic
  | .mk _ _ _ _ _ _ _ _ t _ => t

def Command.children : Command → List Command
  | .mk _ _ _ _ _ _ _ _ _ c => c

mutual

/-- Number of nodes of a command tree; used as a termination measure for the
recursive documentation walker. -/
def Command.size : Command → Nat
  | .mk _ _ _ _ _ _ _ _ _ children => 1 + Command.sizeList children

def Command.sizeList : List Command → Nat
  | [] => 0
  | c :: cs => Command.size c + Command.sizeList cs

end

/-- The result of running an external process for help purposes: its captured
output and its exit status (`none` = success, `some e` = failure `e`). -/
structure RunResult where
  out : String
  err : Option String
deriving Repr, DecidableEq

/-- The ambient environment (`*cmdline.Env`) together with the external
collaborators the help engine consults:
* `pfx` — the name of the invoking binary chain (`env.prefix()`);
* `fc` — the resolved value of `env.firstCall()`;
* `lookup1 name` — whether an executable `name` exists on the search path
  (`lookPath`);
* `lookupAll name excl` — all executables `name-*` on the search path not
  excluded by `excl`, order-stable (`lookPathAll`);
* `run bin args vars` — invoke executable `bin` with arguments `args` and
  extra environment variables `vars`, returning its captured output and exit
  status (`binaryRunner.Run`);
* `globalFlags` — the process-wide global flag registry, in visit order;
* `nonHidden` — the `nonHiddenGlobalFlags` package variable (`none` models the
  Go nil slice, meaning every name matches);
* `docAccepts header` — whether `go/doc.ToHTML` extracts a section header from
  `header` (i.e. whether its output contains `<h`). -/
structure OsEnv where
  pfx : String
  fc : Bool
  lookup1 : String → Bool
  lookupAll : String → List String → List String
  run : String → List String → List (String × String) → RunResult
  globalFlags : List FlagEntry
  nonHidden : Option (List Rx)
  docAccepts : String → Bool

/-- Help configuration (`helpConfig`): resolved style and wrap width. -/
structure HelpConfig where
  style : Style
  width : Int

/-- One write to the output sink:
* `line s` — `fmt.Fprintln(w, s)` with a single string argument;
* `words ws` — `fmt.Fprintln(w, a, b, ...)` with several arguments
  (space-separated);
* `raw s` — `fmt.Fprint(w, s)` (spliced child-process output);
* `blank` — `fmt.Fprintln(w)`;
* `rule n` — the `=`-repeated separator line of `lineBreak`;
* `row width name short` — one aligned table row
  (`fmt.Fprintf(w, "%-[1]*[2]s %[3]s", width, name, short)`). -/
inductive OutEvent where
  | line (s : String)
  | words (ws : List String)
  | raw (s : String)
  | blank
  | rule (n : Nat)
  | row (width : Nat) (name short : String)
deriving Repr, DecidableEq

/-- `strings.Repeat(" ", count)` (source `spaces`). -/
def spaces (count : Nat) : String :=
  String.mk (List.replicate count ' ')

/-- Left-justify `s` in a field of `w` characters (Go `%-*s`). -/
def padTo (s : String) (w : Nat) : String :=
  s ++ spaces (w - s.length)

/-- The text an output event stands for. -/
def OutEvent.text : OutEvent → String
  | .line s => s ++ "\n"
  | .words ws => String.intercalate " " ws ++ "\n"
  | .raw s => s
  | .blank => "\n"
  | .rule n => String.mk (List.replicate n '=') ++ "\n"
  | .row w n s => padTo n w ++ " " ++ s ++ "\n"

/-- Concatenated text of a list of output events. -/
def eventsText (evs : List OutEvent) : String :=
  (evs.map OutEvent.text).foldr (fun a b => a ++ b) ""

/-- Concatenation of the results of `f` over a list. -/
def concatMap (f : α → List β) : List α → List β
  | [] => []
  | x :: xs => f x ++ concatMap f xs

/-- Source constant `missingDescription`. -/
def missingDescription : String := "No description available"

/-- Source constant `helpName`. -/
def helpName : String := "help"

/-- Source `needsHelpChild`: true iff `cmd` has children and none of them is
already named `help`. -/
def needsHelpChild (cmd : Command) : Bool :=
  if cmd.children.any (fun child => child.name == helpName) then false
  else !cmd.children.isEmpty

/-- Source `firstRuneToUpper`. -/
def firstRuneToUpper (s : String) : String :=
  if s = "" then ""
  else
    match s.data with
    | [] => ""
    | c :: cs => String.mk (c.toUpper :: cs)

/-- Source `godocHeader`.  The recognizer `accepts` stands for the external
`go/doc.ToHTML` probe: `accepts h` is true iff the HTML rendered from
`"before\n\n" ++ h ++ "\n\nafter"` contains a `<h` tag. -/
def godocHeader (accepts : String → Bool) (path short : String) : String :=
  if path = "" then firstRuneToUpper short
  else if short = "" then firstRuneToUpper path
  else
    let header := firstRuneToUpper (path ++ " - " ++ short)
    if accepts header then header else firstRuneToUpper path

/-- Modelled from the spec: the fixed fallback width (`defaultWidth`, defined
outside `src/`) used for separator rules when the wrap width is unlimited. -/
def defaultWidth : Nat := 80

/-- Source `lineBreak`: a visual separator between recursively dumped
sections.  `short` style matches no case of the Go switch and emits nothing. -/
def lineBreak (width : Int) (st : Style) : List OutEvent :=
  match st with
  | .compact => [.rule (if width < 0 then defaultWidth else width.toNat)]
  | .full => [.rule (if width < 0 then defaultWidth else width.toNat)]
  | .godoc => [.blank]
  | .short => []

/-- Modelled from the spec: `pathName` (not under `src/`) builds the full
command path by joining the environment's binary-name chain and the names of
the commands on the path, separated by single spaces. -/
def pathName (pfx : String) (path : List Command) : String :=
  (path.map Command.name).foldl
    (fun acc n => if acc = "" then n else acc ++ " " ++ n) pfx

/-- Whether the first character list leads the second. -/
def leadsList : List Char → List Char → Bool
  | [], _ => true
  | _ :: _, [] => false
  | a :: as, b :: bs => a == b && leadsList as bs

/-- Go `strings.TrimPrefix(s, p)`: drop the leading `p` when present.
Implemented on character lists so that it evaluates inside the kernel. -/
def goTrim (s p : String) : String :=
  if leadsList p.data s.data then String.mk (s.data.drop p.data.length)
  else s

/-- Modelled from the spec: `Command.subNames` (not under `src/`) lists the
names already declared as built-in children, used to exclude them from
external-binary discovery. -/
def Command.subNames (c : Command) : List String :=
  c.children.map Command.name

/-- Source `matchRegexps`: a Go nil slice (`none`) means every name matches,
an empty slice matches no name. -/
def matchRegexps (regexps : Option (List Rx)) (name : String) : Bool :=
  match regexps with
  | none => true
  | some rs => rs.any (fun r => r name)

/-- Source `countFlags`: the number of flags whose name's match status against
`regexps` equals `mtch`. -/
def countFlags (flags : List FlagEntry) (regexps : Option (List Rx))
    (mtch : Bool) : Nat :=
  (flags.filter (fun f => mtch == matchRegexps regexps f.name)).length

/-- The `-name=value` text printed for one flag; godoc style substitutes the
default value for the live value. -/
def flagText (st : Style) (f : FlagEntry) : String :=
  " -" ++ f.name ++ "=" ++ (if st = .godoc then f.defValue else f.value)

/-- Source `printFlags`: each selected flag contributes its `-name=value` text
followed by its indented usage line. -/
def printFlags (flags : List FlagEntry) (st : Style)
    (regexps : Option (List Rx)) (mtch : Bool) : List OutEvent :=
  concatMap
    (fun f =>
      if mtch == matchRegexps regexps f.name then
        [.raw (flagText st f), .line f.usage]
      else [])
    flags

/-- The hint printed by `flagsUsage` in compact style when hidden global flags
exist (source lines 432-442). -/
def fullHelpHint (env : OsEnv) (cmdPath : String) (ppath : List Command)
    (cmd : Command) : String :=
  if cmd.children.isEmpty then
    if ppath.isEmpty then
      "Run \x22CMDLINE_STYLE=full " ++ cmdPath ++ " -help\x22 to show all global flags."
    else
      "Run \x22" ++ pathName env.pfx ppath ++ " help -style=full " ++ cmd.name ++
        "\x22 to show all global flags."
  else
    "Run \x22" ++ cmdPath ++ " help -style=full\x22 to show all global flags."

/-- Source `flagsUsage`: the command's own flag section, then (first call
only) the global flag section filtered by style. -/
def flagsUsage (env : OsEnv) (config : HelpConfig) (ppath : List Command)
    (cmd : Command) (firstCall : Bool) : List OutEvent :=
  let cmdPath := pathName env.pfx (ppath ++ [cmd])
  (if 0 < countFlags cmd.flags none true then
    [.blank, .words ["The", cmdPath, "flags are:"]] ++
      printFlags cmd.flags config.style none true
  else []) ++
  (if !firstCall then []
  else
    let hasCompact := 0 < countFlags env.globalFlags env.nonHidden true
    let hasFull := 0 < countFlags env.globalFlags env.nonHidden false
    if config.style ≠ .compact then
      if hasCompact || hasFull then
        [.blank, .line "The global flags are:"] ++
          printFlags env.globalFlags config.style env.nonHidden true ++
          (if hasCompact && hasFull then [.blank] else []) ++
          printFlags env.globalFlags config.style env.nonHidden false
      else []
    else
      (if hasCompact then
        [.blank, .line "The global flags are:"] ++
          printFlags env.globalFlags config.style env.nonHidden true
      else []) ++
      (if hasFull then [.blank, .line (fullHelpHint env cmdPath ppath cmd)]
      else []))

/-- Source constant `minNameWidth`. -/
def minNameWidth : Nat := 11

/-- The name-column width of the sub-command table, computed as in source
lines 309-321: start from `minNameWidth`, then take every built-in child name
and every discovered binary name (with the `cmd.name ++ "-"` lead stripped)
into account. -/
def subTableWidth (cmd : Command) (subCmds : List String) : Nat :=
  let w1 := cmd.children.foldl
    (fun w child => if w < child.name.length then child.name.length else w)
    minNameWidth
  subCmds.foldl
    (fun w sub =>
      let l := (goTrim sub (cmd.name ++ "-")).length
      if w < l then l else w)
    w1

/-- The name-column width of the topic table (source lines 378-383). -/
def topicTableWidth (topics : List Topic) : Nat :=
  topics.foldl
    (fun w t => if w < t.name.length then t.name.length else w)
    minNameWidth

/-- Long description of the synthesized help command, as written in
`newCommand` (surrounding whitespace trimmed by `cleanTree`). -/
def helpLongText : String :=
  "Help with no args displays the usage of the parent command.\n\n" ++
  "Help with args displays the usage of the specified sub-command or help topic.\n\n" ++
  "\x22help ...\x22 recursively displays help for all commands and topics."

/-- Argument help of the synthesized help command. -/
def helpArgsLongText : String :=
  "[command/topic ...] optionally identifies a specific sub-command or help topic."

/-- Usage text of the `-style` flag of the synthesized help command. -/
def helpStyleFlagUsage : String :=
  "The formatting style for help output:\n" ++
  "   compact - Good for compact cmdline output.\n" ++
  "   full    - Good for cmdline output, shows all global flags.\n" ++
  "   godoc   - Good for godoc processing.\n" ++
  "Override the default by setting the CMDLINE_STYLE environment variable."

/-- Usage text of the `-width` flag of the synthesized help command. -/
def helpWidthFlagUsage : String :=
  "Format output to this target width in runes, or unlimited if width < 0.\n" ++
  "Defaults to the terminal width if available.  Override the default by setting\n" ++
  "the CMDLINE_WIDTH environment variable."

/-- The synthesized help command (`helpRunner.newCommand`): name `help`, a
runner, no children, no topics, and the `-style`/`-width` flags whose current
values come from the help configuration and whose displayed defaults are
overridden to `compact` and `<terminal width>`. -/
def helpCommand (config : HelpConfig) : Command :=
  Command.mk helpName "Display help for commands or topics" helpLongText
    "[command/topic ...]" helpArgsLongText
    [⟨"style", config.style.token, "compact", helpStyleFlagUsage⟩,
     ⟨"width", toString config.width, "<terminal width>", helpWidthFlagUsage⟩]
    true false [] []

/-- The discovered external binaries consulted by `usage` and `usageAll`:
only a command with the external-search flag set enumerates them (source
lines 301-303 and 218). -/
def subCmdsOf (env : OsEnv) (cmd : Command) : List String :=
  if cmd.lookPath then env.lookupAll cmd.name cmd.subNames else []

/-- The invocation-line path of the `Usage:` block with the optional
`[flags]` token (source lines 289-292): the token is appended exactly when
the target command's own flag registry is non-empty. -/
def cmdPathF (cmdPath : String) (cmd : Command) : String :=
  "   " ++ cmdPath ++
    (if 0 < countFlags cmd.flags none true then " [flags]" else "")

/-- The sub-command-table row for one discovered binary (source lines
340-356): probe it with `-help` in short style; on success the whole
captured output is the description, on failure the placeholder is. -/
def binShortRow (env : OsEnv) (nameWidth : Nat) (cmdName sub : String) :
    OutEvent :=
  let r := env.run sub ["-help"] [("CMDLINE_STYLE", "short")]
  match r.err with
  | none => .row nameWidth (goTrim sub (cmdName ++ "-")) r.out
  | some _ => .row nameWidth (goTrim sub (cmdName ++ "-")) missingDescription

/-- Source `usage` (lines 272-396): renders the usage of `cmd`, the last
command of the Go path `ppath ++ [cmd]`.  Short style short-circuits to the
one-line short description.  Otherwise: optional separator + godoc header on
non-first calls; long description; the `Usage:` block; the sub-command table
(built-in children, discovered binaries probed with a short-style `-help`
request, and — first call only — the synthesized help row); the per-command
hint; the args section; the topic table; and the flag sections. -/
def usage (env : OsEnv) (config : HelpConfig) (ppath : List Command)
    (cmd : Command) (firstCall : Bool) : List OutEvent :=
  let cmdPath := pathName env.pfx (ppath ++ [cmd])
  if config.style = .short then [.line cmd.short]
  else
    (if firstCall then []
     else lineBreak config.width config.style ++
       [.line (godocHeader env.docAccepts cmdPath cmd.short), .blank]) ++
    [.line cmd.long, .blank, .line "Usage:"] ++
    (let pathF := cmdPathF cmdPath cmd
     let subCmds := subCmdsOf env cmd
     let hasSub := !subCmds.isEmpty || !cmd.children.isEmpty
     let nameWidth := subTableWidth cmd subCmds
     (if cmd.hasRunner then
       if cmd.argsName ≠ "" then [.words [pathF, cmd.argsName]]
       else [.line pathF]
     else []) ++
     (if hasSub then [.words [pathF, "<command>"]] else []) ++
     (if hasSub then [.blank, .words ["The", cmdPath, "commands are:"]]
      else []) ++
     cmd.children.map (fun child => .row nameWidth child.name child.short) ++
     subCmds.map (binShortRow env nameWidth cmd.name) ++
     (if firstCall && needsHelpChild cmd then
       [.row nameWidth helpName (helpCommand config).short]
     else []) ++
     (if hasSub && (firstCall && config.style ≠ .godoc) then
       [.line ("Run \x22" ++ cmdPath ++ " help [command]\x22 for command usage.")]
     else [])) ++
    (if cmd.hasRunner && cmd.argsLong ≠ "" then [.blank, .line cmd.argsLong]
     else []) ++
    (if !cmd.topics.isEmpty then
      [.blank, .words ["The", cmdPath, "additional help topics are:"]] ++
        cmd.topics.map (fun t =>
          .row (topicTableWidth cmd.topics) t.name t.short) ++
        (if firstCall && config.style ≠ .godoc then
          [.line ("Run \x22" ++ cmdPath ++ " help [topic]\x22 for topic details.")]
        else [])
     else []) ++
    flagsUsage env config ppath cmd firstCall

theorem Command.size_eq (c : Command) :
    c.size = 1 + Command.sizeList c.children := by
  cases c
  simp [Command.size, Command.children]

theorem Command.sizeList_nil : Command.sizeList [] = 0 := by
  simp [Command.sizeList]

theorem Command.sizeList_cons (c : Command) (cs : List Command) :
    Command.sizeList (c :: cs) = c.size + Command.sizeList cs := by
  simp [Command.sizeList]

theorem Command.size_pos (c : Command) : 1 ≤ c.size := by
  rw [Command.size_eq]
  omega

theorem helpCommand_size (config : HelpConfig) :
    (helpCommand config).size = 1 := by
  rw [helpCommand, Command.size_eq]
  simp [Command.children, Command.sizeList]

/-- The per-discovered-binary probe of `usageAll` (source lines 219-253):
first try `help ...` with the first-call marker and the parent's style in the
environment; on success splice the captured output (preceded by a blank line
in godoc style); else try `-help` the same way; else emit a separator and a
placeholder header for the undocumentable binary. -/
def binDump (env : OsEnv) (config : HelpConfig) (cmdPath cmdName sub : String) :
    List OutEvent :=
  let vars := [("CMDLINE_FIRST_CALL", "1"), ("CMDLINE_STYLE", config.style.token)]
  let r1 := env.run sub [helpName, "..."] vars
  match r1.err with
  | none => (if config.style = .godoc then [.blank] else []) ++ [.raw r1.out]
  | some _ =>
    let r2 := env.run sub ["-help"] vars
    match r2.err with
    | none => (if config.style = .godoc then [.blank] else []) ++ [.raw r2.out]
    | some _ =>
      lineBreak config.width config.style ++
        [.line (godocHeader env.docAccepts
          (cmdPath ++ " " ++ goTrim sub (cmdName ++ "-")) missingDescription)]

mutual

/-- Source `usageAll` (lines 211-267): depth-first recursive dump.  Render the
node's usage, recurse into the built-in children, probe each discovered
binary, recurse into the synthesized help command on the first call when one
is needed, then emit every topic. -/
def usageAll (env : OsEnv) (config : HelpConfig) (ppath : List Command)
    (cmd : Command) (firstCall : Bool) : List OutEvent :=
  let cmdPath := pathName env.pfx (ppath ++ [cmd])
  usage env config ppath cmd firstCall ++
  usageAllList env config (ppath ++ [cmd]) cmd.children ++
  (if cmd.lookPath then
    concatMap (binDump env config cmdPath cmd.name)
      (env.lookupAll cmd.name cmd.subNames)
  else []) ++
  (if h : firstCall && needsHelpChild cmd then
    usageAll env config (ppath ++ [cmd]) (helpCommand config) false
  else []) ++
  concatMap (fun t =>
    lineBreak config.width config.style ++
      [.line (godocHeader env.docAccepts (cmdPath ++ " " ++ t.name) t.short),
       .blank, .line t.long]) cmd.topics
termination_by 2 * cmd.size + firstCall.toNat
decreasing_by
  · rw [Command.size_eq cmd]
    omega
  · have hfc : firstCall = true := (Bool.and_eq_true _ _ |>.mp h).1
    have hp := Command.size_pos cmd
    rw [helpCommand_size, hfc]
    simp [Bool.toNat]
    omega

/-- The `for _, child := range cmd.Children` loop of `usageAll`. -/
def usageAllList (env : OsEnv) (config : HelpConfig) (ppath : List Command) :
    List Command → List OutEvent
  | [] => []
  | c :: cs =>
    usageAll env config ppath c false ++ usageAllList env config ppath cs
termination_by cs => 2 * Command.sizeList cs + 1
decreasing_by
  · rw [Command.sizeList_cons]
    have := Command.size_pos c
    simp [Bool.toNat]
    omega
  · rw [Command.sizeList_cons]
    have := Command.size_pos c
    omega

end

/-- Modelled from the spec: `usageErrorf` (not under `src/`) writes the
formatted error message through the reporting sink, followed by the node's
own usage text, and returns the error carrying that message. -/
def usageErrorf (usageEvents : List OutEvent) (msg : String) :
    List OutEvent × Option String :=
  (.line msg :: usageEvents, some msg)

/-- The outcome of `runHelp`: events written to the usage sink `w`, events
written to the reporting sink (`stderr`), and the returned error. -/
structure HelpOut where
  w : List OutEvent
  errOut : List OutEvent
  err : Option String
deriving Repr, DecidableEq

/-- Source `runHelp` (lines 100-142), the help command dispatcher.  Go's `%q`
verb in the unknown-command message is modelled as plain double quotes (the
two agree on names without escapes). -/
def runHelp (env : OsEnv) (config : HelpConfig) (args : List String)
    (ppath : List Command) (cmd : Command) : HelpOut :=
  match args with
  | [] => ⟨usage env config ppath cmd env.fc, [], none⟩
  | subName :: subArgs =>
    if subName = "..." then ⟨usageAll env config ppath cmd env.fc, [], none⟩
    else
      match cmd.children.find? (fun child => child.name == subName) with
      | some child => runHelp env config subArgs (ppath ++ [cmd]) child
      | none =>
        if subName = helpName then
          runHelp env config subArgs (ppath ++ [cmd]) (helpCommand config)
        else if cmd.lookPath && env.lookup1 (cmd.name ++ "-" ++ subName) then
          let r := env.run (cmd.name ++ "-" ++ subName)
            (if subArgs.isEmpty then ["-help"] else helpName :: subArgs)
            [("CMDLINE_STYLE", config.style.token)]
          ⟨[.raw r.out], [], r.err⟩
        else
          match cmd.topics.find? (fun t => t.name == subName) with
          | some t => ⟨[.line t.long], [], none⟩
          | none =>
            let res := usageErrorf (usage env config ppath cmd env.fc)
              (pathName env.pfx (ppath ++ [cmd]) ++
                ": unknown command or topic \x22" ++ subName ++ "\x22")
            ⟨[], res.1, res.2⟩

/-- Go `append` on a possibly-nil slice: appending nothing to nil stays nil,
anything else yields a non-nil slice. -/
def goAppend (s : Option (List α)) (xs : List α) : Option (List α) :=
  match s, xs with
  | none, [] => none
  | none, x :: xs => some (x :: xs)
  | some l, xs => some (l ++ xs)

/-- Source `HideGlobalFlagsExcept`, as a transition on the package variable
`nonHiddenGlobalFlags`: append the given regexps, then replace a nil result
by an empty (match-nothing) slice. -/
def HideGlobalFlagsExcept (s : Option (List Rx)) (regexps : List Rx) :
    Option (List Rx) :=
  match goAppend s regexps with
  | none => some []
  | some l => some l

/-- The name-column widths of the table rows among a list of events, in
order. -/
def rowWidths : List OutEvent → List Nat
  | [] => []
  | .row w _ _ :: es => w :: rowWidths es
  | .line _ :: es => rowWidths es
  | .words _ :: es => rowWidths es
  | .raw _ :: es => rowWidths es
  | .blank :: es => rowWidths es
  | .rule _ :: es => rowWidths es

/-- Whether an event is a table row named `help`. -/
def isHelpRow : OutEvent → Bool
  | .row _ n _ => n == helpName
  | _ => false

/-- Whether some event of the list is a table row named `help`. -/
def hasHelpRow (evs : List OutEvent) : Bool :=
  evs.any isHelpRow

/-- The longest length among a list of names (0 when empty). -/
def maxLen (names : List String) : Nat :=
  (names.map String.length).foldr Nat.max 0

/-- The names displayed in the sub-command table: built-in children, the
discovered binaries with the parent's `name-` lead stripped, and the
synthesized help row when present. -/
def subRowNames (cmd : Command) (subCmds : List String) (helpRow : Bool) :
    List String :=
  cmd.children.map Command.name ++
  subCmds.map (fun sub => goTrim sub (cmd.name ++ "-")) ++
  (if helpRow then [helpName] else [])

/-- The first line of a string (everything before the first newline); this is
what claim C3's "taking the first line of the captured output" denotes. -/
def specFirstLine (s : String) : String :=
  String.mk (s.data.takeWhile (fun c => c != '\n'))

theorem rowWidths_append (a b : List OutEvent) :
    rowWidths (a ++ b) = rowWidths a ++ rowWidths b := by
  induction a with
  | nil => simp [rowWidths]
  | cons e es ih => cases e <;> simp [rowWidths, ih]

theorem rowWidths_map_row {α : Type} (l : List α) (W : Nat) (f : α → OutEvent)
    (hf : ∀ x ∈ l, ∃ n s, f x = .row W n s) :
    rowWidths (l.map f) = List.replicate l.length W := by
  induction l with
  | nil => simp [rowWidths]
  | cons x xs ih =>
    obtain ⟨n, s, hx⟩ := hf x (List.mem_cons_self x xs)
    simp only [List.map_cons, hx, rowWidths, List.length_cons,
      List.replicate_succ]
    rw [ih (fun y hy => hf y (List.mem_cons_of_mem _ hy))]

theorem rowWidths_printFlags (flags : List FlagEntry) (st : Style)
    (regexps : Option (List Rx)) (mtch : Bool) :
    rowWidths (printFlags flags st regexps mtch) = [] := by
  induction flags with
  | nil => rfl
  | cons f fs ih =>
    have hcons : printFlags (f :: fs) st regexps mtch =
        (if mtch == matchRegexps regexps f.name then
          [.raw (flagText st f), .line f.usage]
        else []) ++ printFlags fs st regexps mtch := rfl
    rw [hcons, rowWidths_append, ih]
    cases hc : mtch == matchRegexps regexps f.name <;> simp [rowWidths]

theorem rowWidths_lineBreak (width : Int) (st : Style) :
    rowWidths (lineBreak width st) = [] := by
  cases st <;> simp [lineBreak, rowWidths]

theorem rowWidths_flagsUsage (env : OsEnv) (config : HelpConfig)
    (ppath : List Command) (cmd : Command) (firstCall : Bool) :
    rowWidths (flagsUsage env config ppath cmd firstCall) = [] := by
  simp [flagsUsage, apply_ite rowWidths, rowWidths_append, rowWidths,
    rowWidths_printFlags]

theorem nat_max_assoc (a b c : Nat) :
    Nat.max (Nat.max a b) c = Nat.max a (Nat.max b c) := by
  simp only [Nat.max_def]
  split_ifs <;> omega

theorem step_eq_max (a x : Nat) :
    (if a < x then x else a) = Nat.max a x := by
  simp only [Nat.max_def]
  split <;> split <;> omega

theorem foldl_step_max (l : List Nat) (a : Nat) :
    l.foldl (fun w x => if w < x then x else w) a =
      Nat.max a (l.foldr Nat.max 0) := by
  induction l generalizing a with
  | nil => simp
  | cons x xs ih =>
    simp only [List.foldl_cons, List.foldr_cons]
    rw [ih, step_eq_max, nat_max_assoc]

theorem maxLen_nil : maxLen [] = 0 := rfl

theorem maxLen_append (a b : List String) :
    maxLen (a ++ b) = Nat.max (maxLen a) (maxLen b) := by
  induction a with
  | nil => simp [maxLen]
  | cons x xs ih =>
    simp only [maxLen, List.map_cons, List.map_append, List.foldr_append,
      List.foldr_cons] at *
    rw [ih, nat_max_assoc]

theorem subTableWidth_eq (cmd : Command) (subCmds : List String) :
    subTableWidth cmd subCmds =
      Nat.max minNameWidth
        (Nat.max (maxLen (cmd.children.map Command.name))
          (maxLen (subCmds.map (fun sub => goTrim sub (cmd.name ++ "-"))))) := by
  unfold subTableWidth
  rw [← List.foldl_map (fun child : Command => child.name.length)
      (fun w x => if w < x then x else w),
    ← List.foldl_map (fun sub : String => (goTrim sub (cmd.name ++ "-")).length)
      (fun w x => if w < x then x else w),
    foldl_step_max, foldl_step_max, nat_max_assoc]
  simp [maxLen, List.map_map, Function.comp_def]

theorem topicTableWidth_eq (topics : List Topic) :
    topicTableWidth topics =
      Nat.max minNameWidth (maxLen (topics.map Topic.name)) := by
  unfold topicTableWidth
  rw [← List.foldl_map (fun t : Topic => t.name.length)
      (fun w x => if w < x then x else w),
    foldl_step_max]
  simp [maxLen, List.map_map, Function.comp_def]

theorem nat_max_absorb (m a b c : Nat) (h : c ≤ m) :
    Nat.max m (Nat.max (Nat.max a b) c) = Nat.max m (Nat.max a b) := by
  simp only [Nat.max_def]
  split_ifs <;> omega

theorem replicate_cons_shift {α : Type} (n : Nat) (a : α) (t : List α) :
    List.replicate n a ++ a :: t = a :: (List.replicate n a ++ t) := by
  induction n with
  | zero => simp
  | succ k ih => simp [List.replicate_succ, ih]

theorem subRowNames_length_false (cmd : Command) (subCmds : List String) :
    (subRowNames cmd subCmds false).length =
      cmd.children.length + subCmds.length := by
  simp [subRowNames]

theorem subRowNames_length_true (cmd : Command) (subCmds : List String) :
    (subRowNames cmd subCmds true).length =
      cmd.children.length + subCmds.length + 1 := by
  simp [subRowNames]
  omega

theorem subTableWidth_eq_rows (cmd : Command) (subCmds : List String)
    (helpRow : Bool) :
    subTableWidth cmd subCmds =
      Nat.max minNameWidth (maxLen (subRowNames cmd subCmds helpRow)) := by
  rw [subTableWidth_eq, subRowNames, maxLen_append, maxLen_append]
  cases helpRow
  · simp [maxLen]
  · have h4 : maxLen [helpName] = 4 := rfl
    rw [if_pos rfl, h4, nat_max_absorb]
    decide

/-- C8: rendering usage in short style writes exactly the target command's
one-line short description followed by a line terminator and nothing else —
no separator, header, Usage: block, tables or flags — for every path,
configuration and firstCall flag. -/
theorem shortStyle_exact (env : OsEnv) (config : HelpConfig)
    (ppath : List Command) (cmd : Command) (firstCall : Bool)
    (h : config.style = .short) :
    usage env config ppath cmd firstCall = [.line cmd.short] ∧
    eventsText (usage env config ppath cmd firstCall) = cmd.short ++ "\n" := by
  have h1 : usage env config ppath cmd firstCall = [.line cmd.short] := by
    simp [usage, h]
  refine ⟨h1, ?_⟩
  rw [h1]
  simp [eventsText, OutEvent.text]

def cmdW : Command :=
  .mk "root" "Root does things" "Root long description." "" "" [] true false
    [] []

def envPlain : OsEnv :=
  ⟨"", true, fun _ => false, fun _ _ => [], fun _ _ _ => ⟨"", some "fail"⟩,
    [], none, fun _ => false⟩

/-- Witness for C8 at a concrete command and environment. -/
theorem shortStyle_exact_witness :
    usage envPlain ⟨.short, 40⟩ [] cmdW true = [.line "Root does things"] ∧
    eventsText (usage envPlain ⟨.short, 40⟩ [] cmdW true) =
      "Root does things" ++ "\n" := by
  have h := shortStyle_exact envPlain ⟨.short, 40⟩ [] cmdW true rfl
  simpa [cmdW, Command.short] using h

/-- C7: for non-empty path and short description, `godocHeader` returns the
string `path ++ " - " ++ short` with its first rune uppercased when the
recognizer extracts a header from that line, and otherwise just the path
with its first rune uppercased; in particular for path `foo bar` and short
`does a thing` the result is `Foo bar - does a thing` if accepted, else
`Foo bar`. -/
theorem godocHeader_fallback (accepts : String → Bool) (path short : String)
    (hp : path ≠ "") (hs : short ≠ "") :
    godocHeader accepts path short =
      (if accepts (firstRuneToUpper (path ++ " - " ++ short)) then
        firstRuneToUpper (path ++ " - " ++ short)
      else firstRuneToUpper path) ∧
    godocHeader accepts "foo bar" "does a thing" =
      (if accepts "Foo bar - does a thing" then "Foo bar - does a thing"
      else "Foo bar") := by
  constructor
  · simp [godocHeader, hp, hs]
  · have e1 : firstRuneToUpper "foo bar - does a thing" =
        "Foo bar - does a thing" := by decide
    have e2 : firstRuneToUpper "foo bar" = "Foo bar" := by decide
    simp [godocHeader, e1, e2]

/-- Witness for C7 with a recognizer that accepts exactly the expected
header. -/
theorem godocHeader_fallback_witness :
    ("foo bar" ≠ "" ∧ "does a thing" ≠ "") ∧
    godocHeader (fun h => h == "Foo bar - does a thing") "foo bar"
      "does a thing" = "Foo bar - does a thing" := by
  refine ⟨⟨by decide, by decide⟩, ?_⟩
  have h := (godocHeader_fallback (fun h => h == "Foo bar - does a thing")
    "foo bar" "does a thing" (by decide) (by decide)).2
  rw [h]
  decide

/-- C10: when a help path segment matches a topic of the current node (and no
earlier dispatcher rule fires), `runHelp` prints the topic's full long body,
returns success, and silently ignores all remaining segments. -/
theorem topicMatch_ignores_rest (env : OsEnv) (config : HelpConfig)
    (ppath : List Command) (cmd : Command) (subName : String)
    (subArgs : List String) (t : Topic)
    (hdots : subName ≠ "...")
    (hchild : ∀ child ∈ cmd.children, child.name ≠ subName)
    (hhelp : subName ≠ helpName)
    (hlp : cmd.lookPath = false ∨
      env.lookup1 (cmd.name ++ "-" ++ subName) = false)
    (htopic : cmd.topics.find? (fun tp => tp.name == subName) = some t) :
    runHelp env config (subName :: subArgs) ppath cmd =
      ⟨[.line t.long], [], none⟩ := by
  have hf : cmd.children.find? (fun child => child.name == subName) = none := by
    rw [List.find?_eq_none]
    intro x hx
    simp [hchild x hx]
  have hb : (cmd.lookPath && env.lookup1 (cmd.name ++ "-" ++ subName)) =
      false := by
    rcases hlp with h | h <;> simp [h]
  simp [runHelp, hdots, hf, hhelp, hb, htopic]

def cmdTopics : Command :=
  .mk "root" "Root short" "Root long." "" "" [] false false
    [⟨"numbers", "about numbers", "Numbers are documented here."⟩] []

/-- Witness for C10: trailing segments after a topic name are ignored. -/
theorem topicMatch_ignores_rest_witness :
    runHelp envPlain ⟨.full, 40⟩ ["numbers", "extra", "junk"] [] cmdTopics =
      ⟨[.line "Numbers are documented here."], [], none⟩ := by
  have h := topicMatch_ignores_rest envPlain ⟨.full, 40⟩ [] cmdTopics
    "numbers" ["extra", "junk"]
    ⟨"numbers", "about numbers", "Numbers are documented here."⟩
    (by decide) (by intro child hc; simp [cmdTopics, Command.children] at hc)
    (by decide) (Or.inl (by decide)) (by decide)
  simpa using h

/-- C4: when the dispatcher resolves a help segment to a discovered external
binary, it re-invokes that binary with `-help` when no segments remain and
with `help` followed by the remaining segments otherwise, setting
CMDLINE_STYLE to the resolved style, and passes the process's captured
output and exit status through unmodified. -/
theorem externalDelegation_runHelp (env : OsEnv) (config : HelpConfig)
    (ppath : List Command) (cmd : Command) (subName : String)
    (subArgs : List String)
    (hdots : subName ≠ "...")
    (hchild : ∀ child ∈ cmd.children, child.name ≠ subName)
    (hhelp : subName ≠ helpName)
    (hlp : cmd.lookPath = true)
    (hfound : env.lookup1 (cmd.name ++ "-" ++ subName) = true) :
    (subArgs = [] →
      runHelp env config (subName :: subArgs) ppath cmd =
        ⟨[.raw (env.run (cmd.name ++ "-" ++ subName) ["-help"]
            [("CMDLINE_STYLE", config.style.token)]).out], [],
          (env.run (cmd.name ++ "-" ++ subName) ["-help"]
            [("CMDLINE_STYLE", config.style.token)]).err⟩) ∧
    (subArgs ≠ [] →
      runHelp env config (subName :: subArgs) ppath cmd =
        ⟨[.raw (env.run (cmd.name ++ "-" ++ subName) (helpName :: subArgs)
            [("CMDLINE_STYLE", config.style.token)]).out], [],
          (env.run (cmd.name ++ "-" ++ subName) (helpName :: subArgs)
            [("CMDLINE_STYLE", config.style.token)]).err⟩) := by
  have hf : cmd.children.find? (fun child => child.name == subName) = none := by
    rw [List.find?_eq_none]
    intro x hx
    simp [hchild x hx]
  constructor
  · intro he
    subst he
    simp [runHelp, hdots, hf, hhelp, hlp, hfound]
  · intro hne
    have hie : subArgs.isEmpty = false := by
      cases subArgs
      · exact absurd rfl hne
      · rfl
    simp [runHelp, hdots, hf, hhelp, hlp, hfound, hie]

def envExtra : OsEnv :=
  ⟨"", true, fun s => s == "root-extra", fun _ _ => [],
    fun b a _ =>
      if b = "root-extra" ∧ a = ["-help"] then ⟨"EXTRA-HELP-OUT", none⟩
      else ⟨"EXTRA-RECURSE-OUT", some "status 1"⟩,
    [], none, fun _ => false⟩

def cmdRootLook : Command :=
  .mk "root" "Root short" "Root long." "" "" []
    false true [] [.mk "build" "builds" "Build long." "" "" [] true false [] []]

/-- Witness for C4: `help extra` delegates to `root-extra -help`, and
`help extra sub` delegates to `root-extra help sub`, results passed
through verbatim. -/
theorem externalDelegation_runHelp_witness :
    runHelp envExtra ⟨.compact, 40⟩ ["extra"] [] cmdRootLook =
      ⟨[.raw "EXTRA-HELP-OUT"], [], none⟩ ∧
    runHelp envExtra ⟨.compact, 40⟩ ["extra", "sub"] [] cmdRootLook =
      ⟨[.raw "EXTRA-RECURSE-OUT"], [], some "status 1"⟩ := by
  constructor
  · have h := (externalDelegation_runHelp envExtra ⟨.compact, 40⟩ []
      cmdRootLook "extra" [] (by decide)
      (by
        intro child hc
        simp [cmdRootLook, Command.children] at hc
        subst hc
        decide)
      (by decide) (by decide) (by decide)).1 rfl
    rw [h]
    decide
  · have h := (externalDelegation_runHelp envExtra ⟨.compact, 40⟩ []
      cmdRootLook "extra" ["sub"] (by decide)
      (by
        intro child hc
        simp [cmdRootLook, Command.children] at hc
        subst hc
        decide)
      (by decide) (by decide) (by decide)).2 (by decide)
    rw [h]
    decide

/-- C5: when a help segment matches no child, is not `help`, matches no
external binary and no topic, `runHelp` returns an error whose message names
the full attempted path and the unmatched segment, and the node's own usage
is still emitted alongside the error. -/
theorem unknownSegment_error (env : OsEnv) (config : HelpConfig)
    (ppath : List Command) (cmd : Command) (subName : String)
    (subArgs : List String)
    (hdots : subName ≠ "...")
    (hchild : ∀ child ∈ cmd.children, child.name ≠ subName)
    (hhelp : subName ≠ helpName)
    (hlp : cmd.lookPath = false ∨
      env.lookup1 (cmd.name ++ "-" ++ subName) = false)
    (htopic : ∀ tp ∈ cmd.topics, tp.name ≠ subName) :
    runHelp env config (subName :: subArgs) ppath cmd =
      ⟨[],
        .line (pathName env.pfx (ppath ++ [cmd]) ++
          ": unknown command or topic \x22" ++ subName ++ "\x22") ::
          usage env config ppath cmd env.fc,
        some (pathName env.pfx (ppath ++ [cmd]) ++
          ": unknown command or topic \x22" ++ subName ++ "\x22")⟩ := by
  have hf : cmd.children.find? (fun child => child.name == subName) = none := by
    rw [List.find?_eq_none]
    intro x hx
    simp [hchild x hx]
  have ht : cmd.topics.find? (fun tp => tp.name == subName) = none := by
    rw [List.find?_eq_none]
    intro x hx
    simp [htopic x hx]
  have hb : (cmd.lookPath && env.lookup1 (cmd.name ++ "-" ++ subName)) =
      false := by
    rcases hlp with h | h <;> simp [h]
  simp [runHelp, hdots, hf, hhelp, hb, ht, usageErrorf]

def cmdRootBuild : Command :=
  .mk "root" "Root short" "Root long." "" "" [] false false []
    [.mk "build" "builds" "Build long." "" "" [] true false [] []]

/-- Witness for C5: `help deploy` on a tree whose root only has child
`build` errors naming `deploy` and still emits the root's usage. -/
theorem unknownSegment_error_witness :
    runHelp envPlain ⟨.full, 40⟩ ["deploy"] [] cmdRootBuild =
      ⟨[],
        .line ("root" ++ ": unknown command or topic \x22" ++ "deploy" ++
          "\x22") :: usage envPlain ⟨.full, 40⟩ [] cmdRootBuild true,
        some ("root" ++ ": unknown command or topic \x22" ++ "deploy" ++
          "\x22")⟩ := by
  have h := unknownSegment_error envPlain ⟨.full, 40⟩ [] cmdRootBuild
    "deploy" [] (by decide)
    (by
      intro child hc
      simp [cmdRootBuild, Command.children] at hc
      subst hc
      decide)
    (by decide) (Or.inl (by decide))
    (by intro tp htp; simp [cmdRootBuild, Command.topics] at htp)
  simpa [cmdRootBuild, envPlain, pathName, Command.name] using h

/-- C9: after any call to `HideGlobalFlagsExcept` — a zero-argument call
included — the non-hidden filter is non-nil; successive calls accumulate
regexps as if all had been passed in one call; with the filter at `some rs`,
the compact-style global-flag section prints exactly the global flags whose
names match at least one accumulated regexp; and a single zero-argument call
leaves a filter under which no global flag is counted or printed. -/
theorem hideGlobalFlags_filter :
    (∀ (s : Option (List Rx)) (xs : List Rx),
      (HideGlobalFlagsExcept s xs).isSome = true) ∧
    (∀ calls : List (List Rx), calls ≠ [] →
      calls.foldl HideGlobalFlagsExcept none =
        HideGlobalFlagsExcept none calls.flatten) ∧
    (∀ (rs : List Rx) (flags : List FlagEntry) (st : Style),
      printFlags flags st (some rs) true =
        concatMap (fun f => [.raw (flagText st f), .line f.usage])
          (flags.filter (fun f => rs.any (fun r => r f.name)))) ∧
    (∀ (env : OsEnv) (config : HelpConfig) (ppath : List Command)
        (cmd : Command) (rs : List Rx),
      env.nonHidden = some rs → config.style = .compact →
      0 < countFlags env.globalFlags (some rs) true →
      ∃ A B, flagsUsage env config ppath cmd true =
        A ++ printFlags env.globalFlags .compact (some rs) true ++ B) ∧
    (HideGlobalFlagsExcept none [] = some [] ∧
      ∀ (flags : List FlagEntry) (st : Style),
        countFlags flags (some []) true = 0 ∧
        printFlags flags st (some []) true = []) := by
  have hsome : ∀ (s : Option (List Rx)) (xs : List Rx),
      (HideGlobalFlagsExcept s xs).isSome = true := by
    intro s xs
    cases s <;> cases xs <;> rfl
  have hnone : ∀ l : List Rx, HideGlobalFlagsExcept none l = some l := by
    intro l
    cases l <;> rfl
  have hstep : ∀ (l : List Rx) (c : List Rx),
      HideGlobalFlagsExcept (some l) c = some (l ++ c) := by
    intro l c
    rfl
  have hkey : ∀ (cs : List (List Rx)) (l : List Rx),
      cs.foldl HideGlobalFlagsExcept (some l) = some (l ++ cs.flatten) := by
    intro cs
    induction cs with
    | nil => simp
    | cons c cs ih =>
      intro l
      simp only [List.foldl_cons, hstep, ih, List.flatten_cons,
        List.append_assoc]
  have hfold : ∀ calls : List (List Rx), calls ≠ [] →
      calls.foldl HideGlobalFlagsExcept none =
        HideGlobalFlagsExcept none calls.flatten := by
    intro calls hne
    cases calls with
    | nil => exact absurd rfl hne
    | cons c cs =>
      rw [List.foldl_cons, hnone c, hkey cs c, List.flatten_cons, hnone]
  have hprint : ∀ (rs : List Rx) (flags : List FlagEntry) (st : Style),
      printFlags flags st (some rs) true =
        concatMap (fun f => [.raw (flagText st f), .line f.usage])
          (flags.filter (fun f => rs.any (fun r => r f.name))) := by
    intro rs flags st
    induction flags with
    | nil => rfl
    | cons f fs ih =>
      have hcons : printFlags (f :: fs) st (some rs) true =
          (if true == matchRegexps (some rs) f.name then
            [.raw (flagText st f), .line f.usage]
          else []) ++ printFlags fs st (some rs) true := rfl
      rw [hcons, ih]
      cases hb : rs.any (fun r => r f.name) <;>
        simp [matchRegexps, hb, List.filter_cons, concatMap]
  have hempty : ∀ (flags : List FlagEntry) (st : Style),
      countFlags flags (some []) true = 0 ∧
      printFlags flags st (some []) true = [] := by
    intro flags st
    constructor
    · simp [countFlags, matchRegexps]
    · rw [hprint]
      simp [concatMap]
  refine ⟨hsome, hfold, hprint, ?_, rfl, hempty⟩
  intro env config ppath cmd rs hnh hst hcnt
  refine ⟨(if 0 < countFlags cmd.flags none true then
      [.blank, .words ["The", pathName env.pfx (ppath ++ [cmd]),
        "flags are:"]] ++ printFlags cmd.flags config.style none true
    else []) ++ [.blank, .line "The global flags are:"],
    (if 0 < countFlags env.globalFlags (some rs) false then
      [.blank,
        .line (fullHelpHint env (pathName env.pfx (ppath ++ [cmd])) ppath cmd)]
    else []), ?_⟩
  simp [flagsUsage, hnh, hst, hcnt, List.append_assoc]

def rxV : Rx := fun n => n == "v"

def envHide : OsEnv :=
  ⟨"", true, fun _ => false, fun _ _ => [], fun _ _ _ => ⟨"", some "f"⟩,
    [⟨"color", "auto", "auto", "color mode"⟩, ⟨"v", "0", "0", "verbosity"⟩],
    some [rxV], fun _ => false⟩

/-- Witness for C9: a concrete accumulation of two calls, a concrete
compact-style rendering, and a concrete zero-argument hiding. -/
theorem hideGlobalFlags_filter_witness :
    ([[rxV], []].foldl HideGlobalFlagsExcept none =
      HideGlobalFlagsExcept none ([[rxV], []].flatten)) ∧
    (∃ A B, flagsUsage envHide ⟨.compact, 40⟩ [] cmdW true =
      A ++ printFlags envHide.globalFlags .compact (some [rxV]) true ++ B) ∧
    countFlags envHide.globalFlags (some []) true = 0 := by
  refine ⟨hideGlobalFlags_filter.2.1 _ (List.cons_ne_nil _ _), ?_, ?_⟩
  · exact hideGlobalFlags_filter.2.2.2.1 envHide ⟨.compact, 40⟩ [] cmdW
      [rxV] rfl rfl (by decide)
  · exact (hideGlobalFlags_filter.2.2.2.2.2 envHide.globalFlags .compact).1

/-- C6: in every rendered two-column table, the name-column width equals
`max(11, longest name among the displayed rows)`, where external binary
names are measured after stripping the parent's `name-` lead: every table
row emitted by `usage` carries either the sub-command-table width or the
topic-table width, and each equals that maximum over its own rows. -/
theorem tableWidth_max_eleven (env : OsEnv) (config : HelpConfig)
    (ppath : List Command) (cmd : Command) (firstCall : Bool)
    (h : config.style ≠ .short) :
    subTableWidth cmd (subCmdsOf env cmd) =
      Nat.max minNameWidth
        (maxLen (subRowNames cmd (subCmdsOf env cmd)
          (firstCall && needsHelpChild cmd))) ∧
    topicTableWidth cmd.topics =
      Nat.max minNameWidth (maxLen (cmd.topics.map Topic.name)) ∧
    rowWidths (usage env config ppath cmd firstCall) =
      List.replicate
        (subRowNames cmd (subCmdsOf env cmd)
          (firstCall && needsHelpChild cmd)).length
        (subTableWidth cmd (subCmdsOf env cmd)) ++
      List.replicate cmd.topics.length (topicTableWidth cmd.topics) := by
  refine ⟨subTableWidth_eq_rows cmd _ _, topicTableWidth_eq cmd.topics, ?_⟩
  have hchild : rowWidths (cmd.children.map
      (fun child => OutEvent.row (subTableWidth cmd (subCmdsOf env cmd))
        child.name child.short)) =
      List.replicate cmd.children.length
        (subTableWidth cmd (subCmdsOf env cmd)) :=
    rowWidths_map_row _ _ _ (fun x _ => ⟨x.name, x.short, rfl⟩)
  have hsubs : rowWidths ((subCmdsOf env cmd).map
      (binShortRow env (subTableWidth cmd (subCmdsOf env cmd)) cmd.name)) =
      List.replicate (subCmdsOf env cmd).length
        (subTableWidth cmd (subCmdsOf env cmd)) :=
    rowWidths_map_row _ _ _ (fun x _ => by
      cases he : (env.run x ["-help"] [("CMDLINE_STYLE", "short")]).err with
      | none =>
        exact ⟨goTrim x (cmd.name ++ "-"),
          (env.run x ["-help"] [("CMDLINE_STYLE", "short")]).out,
          by simp [binShortRow, he]⟩
      | some e =>
        exact ⟨goTrim x (cmd.name ++ "-"), missingDescription,
          by simp [binShortRow, he]⟩)
  have htop : rowWidths (cmd.topics.map
      (fun t => OutEvent.row (topicTableWidth cmd.topics) t.name t.short)) =
      List.replicate cmd.topics.length (topicTableWidth cmd.topics) :=
    rowWidths_map_row _ _ _ (fun x _ => ⟨x.name, x.short, rfl⟩)
  cases hb : firstCall && needsHelpChild cmd <;>
    by_cases htn : cmd.topics = [] <;>
    · simp only [usage]
      rw [if_neg h]
      simp [hb, htn, rowWidths_append, apply_ite rowWidths, rowWidths,
        rowWidths_lineBreak, rowWidths_flagsUsage, hchild, hsubs, htop,
        List.isEmpty_iff]
      simp only [subRowNames_length_false, subRowNames_length_true,
        List.replicate_add, List.replicate_one, List.append_assoc,
        List.singleton_append]

def envWide : OsEnv :=
  ⟨"", true, fun _ => false, fun _ _ => ["tool-verylongbinname"],
    fun _ _ _ => ⟨"bin short", none⟩, [], none, fun _ => false⟩

def cmdWide : Command :=
  .mk "tool" "Tool short" "Tool long." "" "" [] false true
    [⟨"topic-with-a-long-name", "topic short", "Topic body."⟩]
    [.mk "b" "B short" "B long." "" "" [] true false [] []]

/-- Witness for C6 at a concrete tree with a child, a discovered binary and
a topic. -/
theorem tableWidth_max_eleven_witness :
    ((⟨.full, 40⟩ : HelpConfig).style ≠ .short) ∧
    (subTableWidth cmdWide (subCmdsOf envWide cmdWide) =
      Nat.max minNameWidth
        (maxLen (subRowNames cmdWide (subCmdsOf envWide cmdWide)
          (true && needsHelpChild cmdWide))) ∧
    topicTableWidth cmdWide.topics =
      Nat.max minNameWidth (maxLen (cmdWide.topics.map Topic.name)) ∧
    rowWidths (usage envWide ⟨.full, 40⟩ [] cmdWide true) =
      List.replicate
        (subRowNames cmdWide (subCmdsOf envWide cmdWide)
          (true && needsHelpChild cmdWide)).length
        (subTableWidth cmdWide (subCmdsOf envWide cmdWide)) ++
      List.replicate cmdWide.topics.length (topicTableWidth cmdWide.topics)) :=
  ⟨by decide, tableWidth_max_eleven envWide ⟨.full, 40⟩ [] cmdWide true
    (by decide)⟩

theorem hasHelpRow_append (a b : List OutEvent) :
    hasHelpRow (a ++ b) = (hasHelpRow a || hasHelpRow b) := by
  simp [hasHelpRow, List.any_append]

def envX : OsEnv :=
  ⟨"", true, fun _ => false, fun _ _ => ["x-a"],
    fun _ _ _ => ⟨"", some "fail"⟩, [], none, fun _ => false⟩

def cmdX : Command :=
  .mk "x" "X short" "X long." "" "" [] false true [] []

/-- Counterexample to C1 as stated: a node with the external-search flag set
but no built-in children and no explicit help child gets no synthesized help
command — `needsHelpChild` is false, the sub-command table rendered by
`usage` on the first call contains no help row, and the first-call recursive
dump is exactly the node's usage followed by the external-binary probe, with
no help recursion and no help row. -/
theorem lookPath_no_helpChild_counterexample :
    cmdX.lookPath = true ∧ cmdX.children = [] ∧
    needsHelpChild cmdX = false ∧
    hasHelpRow (usage envX ⟨.full, 40⟩ [] cmdX true) = false ∧
    usageAll envX ⟨.full, 40⟩ [] cmdX true =
      usage envX ⟨.full, 40⟩ [] cmdX true ++
        binDump envX ⟨.full, 40⟩ "x" "x" "x-a" ∧
    hasHelpRow (binDump envX ⟨.full, 40⟩ "x" "x" "x-a") = false := by
  refine ⟨rfl, rfl, by decide, by decide, ?_, by decide⟩
  rw [usageAll]
  simp only [cmdX, envX, Command.children, Command.lookPath, Command.topics,
    Command.name, Command.subNames]
  rw [usageAllList]
  simp [needsHelpChild, Command.children, concatMap, pathName, Command.name]

/-- C1 (amended): only a node with at least one built-in child command and no
explicit child named `help` gets a synthesized help command — `needsHelpChild`
holds, the first-call sub-command table contains a help row, and the
first-call recursive dump recurses into the synthesized help command.  The
external-search flag plays no role in the synthesis decision. -/
theorem helpChild_synthesis_amended (env : OsEnv) (config : HelpConfig)
    (ppath : List Command) (cmd : Command)
    (hne : cmd.children ≠ [])
    (hnh : ∀ child ∈ cmd.children, child.name ≠ helpName)
    (hs : config.style ≠ .short) :
    needsHelpChild cmd = true ∧
    hasHelpRow (usage env config ppath cmd true) = true ∧
    ∃ A B, usageAll env config ppath cmd true =
      A ++ usageAll env config (ppath ++ [cmd]) (helpCommand config) false ++
        B := by
  have h1 : cmd.children.any (fun child => child.name == helpName) = false := by
    rw [List.any_eq_false]
    intro x hx
    simp [hnh x hx]
  have h2 : cmd.children.isEmpty = false := by
    cases hc : cmd.children with
    | nil => exact absurd hc hne
    | cons a l => rfl
  have hn : needsHelpChild cmd = true := by
    simp [needsHelpChild, h1, h2]
  have hrow : hasHelpRow (usage env config ppath cmd true) = true := by
    simp only [usage]
    rw [if_neg hs]
    simp [hasHelpRow_append, hn, hasHelpRow, isHelpRow]
  refine ⟨hn, hrow,
    usage env config ppath cmd true ++
      usageAllList env config (ppath ++ [cmd]) cmd.children ++
      (if cmd.lookPath then
        concatMap (binDump env config (pathName env.pfx (ppath ++ [cmd]))
          cmd.name) (env.lookupAll cmd.name cmd.subNames)
      else []),
    concatMap (fun t =>
      lineBreak config.width config.style ++
        [.line (godocHeader env.docAccepts
          (pathName env.pfx (ppath ++ [cmd]) ++ " " ++ t.name) t.short),
         .blank, .line t.long]) cmd.topics, ?_⟩
  have hc : (true && needsHelpChild cmd) = true := by simp [hn]
  rw [usageAll, dif_pos hc]

def cmdPar : Command :=
  .mk "par" "Par short" "Par long." "" "" [] false false []
    [.mk "kid" "Kid short" "Kid long." "" "" [] true false [] []]

/-- Witness for the amended C1 at a concrete parent with one child. -/
theorem helpChild_synthesis_amended_witness :
    needsHelpChild cmdPar = true ∧
    hasHelpRow (usage envPlain ⟨.full, 40⟩ [] cmdPar true) = true ∧
    ∃ A B, usageAll envPlain ⟨.full, 40⟩ [] cmdPar true =
      A ++ usageAll envPlain ⟨.full, 40⟩ [cmdPar]
        (helpCommand ⟨.full, 40⟩) false ++ B := by
  have h := helpChild_synthesis_amended envPlain ⟨.full, 40⟩ [] cmdPar
    (by simp [cmdPar, Command.children])
    (by
      intro child hc
      simp [cmdPar, Command.children] at hc
      subst hc
      decide)
    (by decide)
  simpa using h

def cmdChildNoFlags : Command :=
  .mk "child" "Child short" "Child long." "" "" [] true false [] []

def rootOneFlag : Command :=
  .mk "root" "Root short" "Root long." "" "" [⟨"n", "1", "1", "count"⟩]
    false false [] [cmdChildNoFlags]

/-- Counterexample to C2 as stated: the parent `root` has a visible flag,
yet the invocation line rendered for the flag-less child `child` carries no
`[flags]` token — ancestor flags are not consulted. -/
theorem flagsToken_ancestor_counterexample :
    rootOneFlag.flags ≠ [] ∧
    (OutEvent.line "   root child" ∈
      usage envPlain ⟨.full, 40⟩ [rootOneFlag] cmdChildNoFlags true) ∧
    (OutEvent.line "   root child [flags]" ∉
      usage envPlain ⟨.full, 40⟩ [rootOneFlag] cmdChildNoFlags true) ∧
    (OutEvent.words ["   root child [flags]", "<command>"] ∉
      usage envPlain ⟨.full, 40⟩ [rootOneFlag] cmdChildNoFlags true) := by
  decide

/-- C2 (amended): the `[flags]` token is appended to the invocation line if
and only if the target command itself has at least one flag; the flags of
ancestors on the path are not consulted. -/
theorem flagsToken_own_flags (env : OsEnv) (config : HelpConfig)
    (ppath : List Command) (cmd : Command) (firstCall : Bool)
    (hs : config.style ≠ .short) (hr : cmd.hasRunner = true)
    (ha : cmd.argsName = "") :
    (OutEvent.line (cmdPathF (pathName env.pfx (ppath ++ [cmd])) cmd) ∈
      usage env config ppath cmd firstCall) ∧
    (∀ p : String,
      cmdPathF p cmd = "   " ++ p ++ " [flags]" ↔ cmd.flags ≠ []) := by
  have hcount : countFlags cmd.flags none true = cmd.flags.length := by
    simp [countFlags, matchRegexps]
  constructor
  · simp only [usage]
    rw [if_neg hs]
    simp [hr, ha, List.mem_append]
  · intro p
    constructor
    · intro hEq hnil
      have h0 : countFlags cmd.flags none true = 0 := by
        rw [hcount, hnil]
        rfl
      unfold cmdPathF at hEq
      rw [h0] at hEq
      simp at hEq
      have h8 : (" [flags]" : String).length = 8 := by decide
      have hlen := congrArg String.length hEq
      simp only [String.length_append, h8] at hlen
      omega
    · intro hne2
      have hpos : 0 < countFlags cmd.flags none true := by
        rw [hcount]
        cases hc : cmd.flags with
        | nil => exact absurd hc hne2
        | cons a l => simp
      simp [cmdPathF, hpos]

def cmdFlagged : Command :=
  .mk "tool" "Tool short" "Tool long." "" "" [⟨"v", "0", "0", "verbose"⟩]
    true false [] []

/-- Witness for the amended C2 at a concrete command with one flag. -/
theorem flagsToken_own_flags_witness :
    (OutEvent.line (cmdPathF (pathName "" [cmdFlagged]) cmdFlagged) ∈
      usage envPlain ⟨.full, 40⟩ [] cmdFlagged true) ∧
    (cmdPathF "tool" cmdFlagged = "   " ++ "tool" ++ " [flags]" ↔
      cmdFlagged.flags ≠ []) := by
  have h := flagsToken_own_flags envPlain ⟨.full, 40⟩ [] cmdFlagged true
    (by decide) (by decide) (by decide)
  exact ⟨h.1, h.2 "tool"⟩

def envML : OsEnv :=
  ⟨"", true, fun _ => false, fun _ _ => ["root-x"],
    fun _ a _ =>
      if a = ["-help"] then ⟨"first line\nsecond line", none⟩
      else ⟨"", some "f"⟩,
    [], none, fun _ => false⟩

def cmdML : Command :=
  .mk "root" "Root short" "Root long." "" "" [] false true [] []

/-- Counterexample to C3 as stated: for a binary whose short-style `-help`
probe captures two lines, the displayed description is the whole captured
output, not its first line. -/
theorem binRow_firstLine_counterexample :
    binShortRow envML 11 "root" "root-x" =
      .row 11 "x" "first line\nsecond line" ∧
    specFirstLine "first line\nsecond line" = "first line" ∧
    "first line\nsecond line" ≠ "first line" ∧
    (OutEvent.row (subTableWidth cmdML (subCmdsOf envML cmdML)) "x"
        "first line\nsecond line" ∈
      usage envML ⟨.full, 40⟩ [] cmdML true) := by
  decide

/-- C3 (amended): for every discovered binary listed in the sub-command
table, the row's name is the binary name with the parent's `name-` lead
stripped, and its description is the entire output captured from invoking
the binary with CMDLINE_STYLE=short and argument `-help`, or the placeholder
when that invocation fails; the row appears in the rendered table. -/
theorem binRow_whole_output (env : OsEnv) (config : HelpConfig)
    (ppath : List Command) (cmd : Command) (firstCall : Bool) (sub : String)
    (hs : config.style ≠ .short) (hlp : cmd.lookPath = true)
    (hm : sub ∈ env.lookupAll cmd.name cmd.subNames) :
    (binShortRow env (subTableWidth cmd (subCmdsOf env cmd)) cmd.name sub ∈
      usage env config ppath cmd firstCall) ∧
    (∀ (W : Nat) (cn s : String),
      binShortRow env W cn s =
        .row W (goTrim s (cn ++ "-"))
          (match (env.run s ["-help"] [("CMDLINE_STYLE", "short")]).err with
           | none => (env.run s ["-help"] [("CMDLINE_STYLE", "short")]).out
           | some _ => missingDescription)) := by
  constructor
  · have hmem : binShortRow env (subTableWidth cmd (subCmdsOf env cmd))
        cmd.name sub ∈
        (subCmdsOf env cmd).map
          (binShortRow env (subTableWidth cmd (subCmdsOf env cmd))
            cmd.name) :=
      List.mem_map_of_mem _ (by simpa [subCmdsOf, hlp] using hm)
    simp only [usage]
    rw [if_neg hs]
    exact List.mem_append_left _ (List.mem_append_left _
      (List.mem_append_left _ (List.mem_append_right _
        (List.mem_append_left _ (List.mem_append_left _
          (List.mem_append_right _ hmem))))))
  · intro W cn s
    cases he : (env.run s ["-help"] [("CMDLINE_STYLE", "short")]).err <;>
      simp [binShortRow, he]

/-- Witness for the amended C3 at the concrete two-line binary. -/
theorem binRow_whole_output_witness :
    (binShortRow envML (subTableWidth cmdML (subCmdsOf envML cmdML))
        cmdML.name "root-x" ∈ usage envML ⟨.full, 40⟩ [] cmdML true) ∧
    binShortRow envML 11 "root" "root-x" =
      .row 11 (goTrim "root-x" ("root" ++ "-"))
        (match (envML.run "root-x" ["-help"]
            [("CMDLINE_STYLE", "short")]).err with
         | none =>
           (envML.run "root-x" ["-help"] [("CMDLINE_STYLE", "short")]).out
         | some _ => missingDescription) := by
  have h := binRow_whole_output envML ⟨.full, 40⟩ [] cmdML true "root-x"
    (by decide) (by decide) (by decide)
  exact ⟨h.1, h.2 11 "root" "root-x"⟩

end Cmdline
